import Mathlib

/-!
Shallow embedding of `core/lib/vm/src/old_vm/oracles/decommitter.rs` (the
bytecode-decommitment oracle of the zkSync-era VM) and of
`core/lib/zksync_core/src/state_keeper/seal_criteria/criteria/pubdata_bytes.rs`
(the pubdata seal criterion), together with proofs about the specification
claims over them.

Machine integers are modelled as `Nat`, with an explicit `% 2^w` exactly where
the Rust source performs a truncating cast (`values.len() as u16`,
`i as u32`, the `u64` multiplication in the seal criterion).  Rust `HashMap`s
are modelled as association lists whose `insert` updates an existing binding
in place and appends new bindings at the end, so that every mutation has an
exact syntactic inverse (this is what the history journal relies on).
Panics are modelled as `Option.none`.
-/

/-- Lookup of the first binding of a key in an association-list map
(model of `HashMap::get`). -/
def mapGet {β : Type} : List (Nat × β) → Nat → Option β
  | [], _ => none
  | (k', v) :: t, k => if k' = k then some v else mapGet t k

/-- Insert into an association-list map (model of `HashMap::insert`):
update the existing binding in place, or append a new binding at the end. -/
def mapInsert {β : Type} : List (Nat × β) → Nat → β → List (Nat × β)
  | [], k, v => [(k, v)]
  | (k', v') :: t, k, v => if k' = k then (k, v) :: t else (k', v') :: mapInsert t k v

/-- Removal of the first binding of a key from an association-list map
(model of `HashMap::remove`, used only by undo records). -/
def mapErase {β : Type} : List (Nat × β) → Nat → List (Nat × β)
  | [], _ => []
  | (k', v') :: t, k => if k' = k then t else (k', v') :: mapErase t k

/-- Modelled from the spec: the History Journal (`HistoryRecorder`, whose
implementation is not under `src/`) wraps a live value together with an
append-only log of undo records, one per mutation (spec sections 4.1 and 9).
A checkpoint is a position in that log. -/
structure HistoryRecorder (α ε : Type) where
  inner : α
  history : List ε
deriving DecidableEq, Repr

/-- Modelled from the spec: the undo record of one map insert stores the key
and its previous binding; applying it restores that binding, or erases the
key if the insert created it. -/
def mapUndo {β : Type} (e : Nat × Option β) (m : List (Nat × β)) : List (Nat × β) :=
  match e.2 with
  | some v => mapInsert m e.1 v
  | none => mapErase m e.1

/-- Modelled from the spec: the undo record of one push onto the append-only
request log removes the last pushed entry. -/
def undoUnit : Unit → List Unit → List Unit := fun _ l => l.dropLast

/-- Journal-backed map insert: apply the mutation to the live value and append
its undo record to the log. -/
def HistoryRecorder.insert {β : Type}
    (r : HistoryRecorder (List (Nat × β)) (Nat × Option β)) (k : Nat) (v : β) :
    HistoryRecorder (List (Nat × β)) (Nat × Option β) :=
  ⟨mapInsert r.inner k v, r.history ++ [(k, mapGet r.inner k)]⟩

/-- Journal-backed push of one unit entry onto the request log
(model of `self.decommitment_requests.push(())`). -/
def HistoryRecorder.push (r : HistoryRecorder (List Unit) Unit) :
    HistoryRecorder (List Unit) Unit :=
  ⟨r.inner ++ [()], r.history ++ [()]⟩

/-- Modelled from the spec: `rollback_to` undoes, in reverse order, every
mutation recorded after the checkpoint position and truncates the log back to
that position (spec section 4.1). -/
def HistoryRecorder.rollback_to {α ε : Type} (undo : ε → α → α)
    (r : HistoryRecorder α ε) (n : Nat) : HistoryRecorder α ε :=
  ⟨((r.history.drop n).reverse).foldl (fun a e => undo e a) r.inner, r.history.take n⟩

/-- The storage collaborator: `load_factory_dep` returns the raw bytecode
bytes for a hash, or `none` if the hash is unknown. -/
abbrev Storage := Nat → Option (List Nat)

/-- Big-endian 256-bit word assembled from a chunk of up to 32 bytes. -/
def beWord (chunk : List Nat) : Nat := chunk.foldl (fun acc b => acc * 256 + b) 0

/-- Chunking loop of `bytes_to_be_words`, driven by a fuel counter so that
the recursion is structural (one byte list can be fully consumed after at
most `length` chunking steps, since each step removes at least one byte). -/
def bytes_to_be_words_go : Nat → List Nat → List Nat
  | 0, _ => []
  | _, [] => []
  | fuel + 1, b :: bs => beWord ((b :: bs).take 32) :: bytes_to_be_words_go fuel ((b :: bs).drop 32)

/-- Modelled from the spec: `zksync_utils::bytes_to_be_words` (not under
`src/`) converts the byte string returned by storage into the sequence of
256-bit big-endian words, 32 bytes per word (spec section 4.2). -/
def bytes_to_be_words (bs : List Nat) : List Nat := bytes_to_be_words_go bs.length bs

/-- State of the `DecommitterOracle` (src lines 22-34): the bytecode cache
`known_bytecodes : HashMap<U256, Vec<U256>>`, the decommitment ledger
`decommitted_code_hashes : HashMap<U256, u32>` and the request log
`decommitment_requests : Vec<()>`, each wrapped in a `HistoryRecorder`.
The storage pointer is kept outside the state and passed to each operation,
since the oracle never mutates it. -/
structure DecommitterOracle where
  known_bytecodes : HistoryRecorder (List (Nat × List Nat)) (Nat × Option (List Nat))
  decommitted_code_hashes : HistoryRecorder (List (Nat × Nat)) (Nat × Option Nat)
  decommitment_requests : HistoryRecorder (List Unit) Unit
deriving DecidableEq, Repr

/-- Fresh oracle with all three collections empty (src `new`, lines 41-48). -/
def DecommitterOracle.new : DecommitterOracle := ⟨⟨[], []⟩, ⟨[], []⟩, ⟨[], []⟩⟩

/-- Model of `get_bytecode` (src lines 52-72): serve the hash from
`known_bytecodes` if present, otherwise load the preimage from storage,
convert it to words and cache it.  The Rust function panics
(`expect("Trying to decode unexisting hash")`) when the hash is absent from
both; the panic is modelled as `none`.  The third component records which
hashes were queried from storage during the call, so that theorems can state
how often storage is consulted. -/
def get_bytecode (storage : Storage) (o : DecommitterOracle) (hash : Nat) :
    Option (List Nat × DecommitterOracle × List Nat) :=
  match mapGet o.known_bytecodes.inner hash with
  | some x => some (x, o, [])
  | none =>
    match storage hash with
    | none => none
    | some bytes =>
      let value := bytes_to_be_words bytes
      some (value, { o with known_bytecodes := o.known_bytecodes.insert hash value }, [hash])

/-- Model of `populate` (src lines 75-79): insert each supplied bytecode,
later entries overwriting earlier ones for the same hash. -/
def populate (o : DecommitterOracle) (bytecodes : List (Nat × List Nat)) : DecommitterOracle :=
  bytecodes.foldl
    (fun acc hb => { acc with known_bytecodes := acc.known_bytecodes.insert hb.1 hb.2 }) o

/-- Model of `zk_evm::aux_structures::DecommittmentQuery`: the request record
mutated in place by `decommit_into_memory`. -/
structure DecommittmentQuery where
  hash : Nat
  timestamp : Nat
  memory_page : Nat
  decommitted_length : Nat
  is_fresh : Bool
deriving DecidableEq, Repr

/-- Model of the `MemoryQuery` template built in src lines 138-148: memory
type is always `Code`, `rw_flag` always true. -/
structure MemoryQuery where
  timestamp : Nat
  page : Nat
  index : Nat
  value : Nat
  value_is_pointer : Bool
  rw_flag : Bool
deriving DecidableEq, Repr

/-- One call of `memory.specialized_code_query`: the issued query together
with the `monotonic_cycle_counter` it was tagged with. -/
structure MemoryWrite where
  cycle : Nat
  query : MemoryQuery
deriving DecidableEq, Repr

/-- Result of one `decommit_into_memory` call: the updated oracle state, the
updated request, the optional returned words, and the list of memory writes
issued to the memory collaborator, in order. -/
structure DecommitResult where
  oracle : DecommitterOracle
  query : DecommittmentQuery
  words : Option (List Nat)
  writes : List MemoryWrite
deriving DecidableEq, Repr

/-- The memory writes issued by the fresh-decommit loop (src lines 153-166):
one specialized code query per word, at consecutive indices truncated to
`u32` (`MemoryIndex(i as u32)`), all on one page, each tagged with the cycle
counter and the request's timestamp. -/
def writesFor (cycle timestamp page : Nat) : Nat → List Nat → List MemoryWrite
  | _, [] => []
  | i, v :: vs =>
    { cycle := cycle,
      query := { timestamp := timestamp, page := page, index := i % 2 ^ 32,
                 value := v, value_is_pointer := false, rw_flag := true } } ::
      writesFor cycle timestamp page (i + 1) vs

/-- Model of `decommit_into_memory` (src lines 101-171).  The request is
logged unconditionally; a ledger hit reports the recorded page with
`is_fresh = false` and the hash-derived length, issuing no writes; a ledger
miss resolves the bytecode, records `(hash, caller page)` in the ledger,
truncates the word count to `u16` (`values.len() as u16`) and writes every
word to memory, additionally returning the words when `B = true` (witness
mode).  A `get_bytecode` panic propagates as `none`.
`blw` stands for `zksync_utils::bytecode_len_in_words`, which is not under
`src/`; it is modelled from the spec as an opaque function of the hash,
since the spec computes the cache-hit length without touching the bytecode
cache ("compute `decommitted_length` from the bytecode's known length",
together with "this path never touches the Bytecode Cache"). -/
def decommit_into_memory (B : Bool) (blw : Nat → Nat) (storage : Storage)
    (o : DecommitterOracle) (monotonic_cycle_counter : Nat) (pq : DecommittmentQuery) :
    Option DecommitResult :=
  let o1 : DecommitterOracle := { o with decommitment_requests := o.decommitment_requests.push }
  match mapGet o1.decommitted_code_hashes.inner pq.hash with
  | some memory_page =>
    some { oracle := o1
           query :=
             { pq with
               is_fresh := false
               memory_page := memory_page
               decommitted_length := blw pq.hash }
           words := none
           writes := [] }
  | none =>
    match get_bytecode storage o1 pq.hash with
    | none => none
    | some (values, o2, _) =>
      let page_to_use := pq.memory_page
      let timestamp := pq.timestamp
      let pq2 := { pq with decommitted_length := values.length % 2 ^ 16, is_fresh := true }
      let o3 := { o2 with
        decommitted_code_hashes := o2.decommitted_code_hashes.insert pq2.hash page_to_use }
      let writes := writesFor monotonic_cycle_counter timestamp page_to_use 0 values
      if B then some { oracle := o3, query := pq2, words := some values, writes := writes }
      else some { oracle := o3, query := pq2, words := none, writes := writes }

/-- A checkpoint across the three journals: the position of each log at the
same logical instant (spec sections 3 and 4.1). -/
structure Checkpoint where
  kb : Nat
  dch : Nat
  dr : Nat
deriving DecidableEq, Repr

/-- The composite checkpoint of the oracle. -/
def DecommitterOracle.checkpoint (o : DecommitterOracle) : Checkpoint :=
  ⟨o.known_bytecodes.history.length, o.decommitted_code_hashes.history.length,
    o.decommitment_requests.history.length⟩

/-- Modelled from the spec: the `Rollback` implementation generated by
`implement_rollback! {known_bytecodes, decommitted_code_hashes,
decommitment_requests}` (src lines 36-38; the macro itself is not under
`src/`) rolls the three journals back as one unit (spec I4, section 4.4). -/
def DecommitterOracle.rollback_to (o : DecommitterOracle) (c : Checkpoint) : DecommitterOracle :=
  { known_bytecodes := o.known_bytecodes.rollback_to mapUndo c.kb,
    decommitted_code_hashes := o.decommitted_code_hashes.rollback_to mapUndo c.dch,
    decommitment_requests := o.decommitment_requests.rollback_to undoUnit c.dr }

/-- The bytecode that a `get_bytecode` call on state `o` would resolve, if
any: the cached entry, or else the word conversion of the storage preimage. -/
def resolves (storage : Storage) (o : DecommitterOracle) (hash : Nat) : Option (List Nat) :=
  match mapGet o.known_bytecodes.inner hash with
  | some x => some x
  | none => (storage hash).map bytes_to_be_words

/-- One driver-visible operation on the oracle: a `populate` call or one
`decommit_into_memory` call. -/
inductive DecOp where
  | pop (bytecodes : List (Nat × List Nat))
  | dec (cycle : Nat) (pq : DecommittmentQuery)

/-- Apply one operation to the oracle state; a decommit panic is `none`. -/
def runOp (B : Bool) (blw : Nat → Nat) (storage : Storage) (o : DecommitterOracle) :
    DecOp → Option DecommitterOracle
  | .pop bs => some (populate o bs)
  | .dec cycle pq => (decommit_into_memory B blw storage o cycle pq).map (fun r => r.oracle)

/-- Apply a sequence of operations to the oracle state. -/
def runOps (B : Bool) (blw : Nat → Nat) (storage : Storage) :
    DecommitterOracle → List DecOp → Option DecommitterOracle
  | o, [] => some o
  | o, op :: ops =>
    match runOp B blw storage o op with
    | none => none
    | some o2 => runOps B blw storage o2 ops

/-! ### Association-list map lemmas -/

theorem mapGet_insert {β : Type} (m : List (Nat × β)) (k k' : Nat) (v : β) :
    mapGet (mapInsert m k v) k' = if k = k' then some v else mapGet m k' := by
  induction m with
  | nil =>
    by_cases h : k = k' <;> simp [mapInsert, mapGet, h]
  | cons hd t ih =>
    obtain ⟨a, b⟩ := hd
    by_cases hak : a = k
    · subst hak
      by_cases h : a = k' <;> simp [mapInsert, mapGet, h]
    · by_cases h : a = k'
      · subst h
        have hk : ¬ k = a := fun hh => hak hh.symm
        simp [mapInsert, mapGet, hak, hk, ih]
      · simp [mapInsert, mapGet, hak, h, ih]

theorem mapGet_insert_self {β : Type} (m : List (Nat × β)) (k : Nat) (v : β) :
    mapGet (mapInsert m k v) k = some v := by
  simp [mapGet_insert]

theorem mapGet_insert_ne {β : Type} (m : List (Nat × β)) (k k' : Nat) (v : β)
    (h : ¬ k = k') : mapGet (mapInsert m k v) k' = mapGet m k' := by
  simp [mapGet_insert, h]

theorem mapUndo_cons_ne {β : Type} (a : Nat) (b : β) (m : List (Nat × β)) (k : Nat)
    (o : Option β) (h : ¬ a = k) :
    mapUndo (k, o) ((a, b) :: m) = (a, b) :: mapUndo (k, o) m := by
  cases o <;> simp [mapUndo, mapInsert, mapErase, h]

/-- Undoing a map insert with the key's previous binding restores the map
exactly, including the order of its bindings. -/
theorem mapUndo_insert {β : Type} (m : List (Nat × β)) (k : Nat) (v : β) :
    mapUndo (k, mapGet m k) (mapInsert m k v) = m := by
  induction m with
  | nil => simp [mapGet, mapInsert, mapUndo, mapErase]
  | cons hd t ih =>
    obtain ⟨a, b⟩ := hd
    by_cases hak : a = k
    · subst hak
      simp [mapGet, mapInsert, mapUndo, mapErase]
    · rw [show mapGet ((a, b) :: t) k = mapGet t k by simp [mapGet, hak],
          show mapInsert ((a, b) :: t) k v = (a, b) :: mapInsert t k v by
            simp [mapInsert, hak],
          mapUndo_cons_ne a b _ k _ hak, ih]

/-! ### History journal rollback machinery -/

/-- States of a history recorder reachable from `r` by recording mutations,
each of which comes with an undo record that exactly inverts it. -/
inductive HRSteps {α ε : Type} (undo : ε → α → α) :
    HistoryRecorder α ε → HistoryRecorder α ε → Prop where
  | refl (r : HistoryRecorder α ε) : HRSteps undo r r
  | step (r r' : HistoryRecorder α ε) (a : α) (e : ε) :
      HRSteps undo r r' → undo e a = r'.inner →
      HRSteps undo r ⟨a, r'.history ++ [e]⟩

theorem HRSteps.chain {α ε : Type} {undo : ε → α → α}
    {r1 r2 r3 : HistoryRecorder α ε} (h12 : HRSteps undo r1 r2)
    (h23 : HRSteps undo r2 r3) : HRSteps undo r1 r3 := by
  induction h23 with
  | refl => exact h12
  | step r' a e hs hu ih => exact HRSteps.step _ r' a e ih hu

theorem HRSteps.history_le {α ε : Type} {undo : ε → α → α}
    {r r' : HistoryRecorder α ε} (h : HRSteps undo r r') :
    r.history.length ≤ r'.history.length := by
  induction h with
  | refl => exact Nat.le_refl _
  | step r' a e hs hu ih => simp; omega

/-- Rolling back to the starting position undoes every recorded mutation and
restores the recorder exactly, live value and log alike. -/
theorem HRSteps.rollback_eq {α ε : Type} {undo : ε → α → α}
    {r r' : HistoryRecorder α ε} (h : HRSteps undo r r') :
    r'.rollback_to undo r.history.length = r := by
  induction h with
  | refl => simp [HistoryRecorder.rollback_to]
  | step r2 a e hs hu ih =>
    have hle : r.history.length ≤ r2.history.length := hs.history_le
    have hdrop : ((⟨a, r2.history ++ [e]⟩ : HistoryRecorder α ε).history.drop
        r.history.length) = r2.history.drop r.history.length ++ [e] :=
      List.drop_append_of_le_length hle
    have htake : ((⟨a, r2.history ++ [e]⟩ : HistoryRecorder α ε).history.take
        r.history.length) = r2.history.take r.history.length :=
      List.take_append_of_le_length hle
    rw [HistoryRecorder.rollback_to] at ih ⊢
    rw [hdrop, htake, List.reverse_append]
    simpa [hu] using ih

theorem HRSteps.insert_step {β : Type}
    (r : HistoryRecorder (List (Nat × β)) (Nat × Option β)) (k : Nat) (v : β) :
    HRSteps mapUndo r (r.insert k v) :=
  HRSteps.step r r (mapInsert r.inner k v) (k, mapGet r.inner k) (HRSteps.refl r)
    (mapUndo_insert r.inner k v)

theorem HRSteps.push_step (r : HistoryRecorder (List Unit) Unit) :
    HRSteps undoUnit r r.push :=
  HRSteps.step r r (r.inner ++ [()]) () (HRSteps.refl r)
    (by simp [undoUnit, List.dropLast_concat])

/-- All three journals of `o'` are reachable from those of `o` by recording
invertible mutations. -/
def OracleSteps (o o' : DecommitterOracle) : Prop :=
  HRSteps mapUndo o.known_bytecodes o'.known_bytecodes ∧
  HRSteps mapUndo o.decommitted_code_hashes o'.decommitted_code_hashes ∧
  HRSteps undoUnit o.decommitment_requests o'.decommitment_requests

theorem OracleSteps.refl (o : DecommitterOracle) : OracleSteps o o :=
  ⟨HRSteps.refl _, HRSteps.refl _, HRSteps.refl _⟩

theorem OracleSteps.compose {o1 o2 o3 : DecommitterOracle} (h12 : OracleSteps o1 o2)
    (h23 : OracleSteps o2 o3) : OracleSteps o1 o3 :=
  ⟨h12.1.chain h23.1, h12.2.1.chain h23.2.1, h12.2.2.chain h23.2.2⟩

theorem populate_steps (o : DecommitterOracle) (bs : List (Nat × List Nat)) :
    OracleSteps o (populate o bs) := by
  induction bs generalizing o with
  | nil => exact OracleSteps.refl o
  | cons hb t ih =>
    have h1 : OracleSteps o
        { o with known_bytecodes := o.known_bytecodes.insert hb.1 hb.2 } :=
      ⟨HRSteps.insert_step _ _ _, HRSteps.refl _, HRSteps.refl _⟩
    exact h1.compose (ih _)

theorem get_bytecode_steps {storage : Storage} {o : DecommitterOracle} {hash : Nat}
    {w : List Nat} {o2 : DecommitterOracle} {qs : List Nat}
    (h : get_bytecode storage o hash = some (w, o2, qs)) : OracleSteps o o2 := by
  rw [get_bytecode] at h
  rcases hg : mapGet o.known_bytecodes.inner hash with _ | x
  · rw [hg] at h
    rcases hs : storage hash with _ | bytes
    · rw [hs] at h; exact absurd h (by simp)
    · rw [hs] at h
      simp only [Option.some.injEq, Prod.mk.injEq] at h
      rw [← h.2.1]
      exact ⟨HRSteps.insert_step _ _ _, HRSteps.refl _, HRSteps.refl _⟩
  · rw [hg] at h
    simp only [Option.some.injEq, Prod.mk.injEq] at h
    rw [← h.2.1]
    exact OracleSteps.refl o

theorem decommit_steps {B : Bool} {blw : Nat → Nat} {storage : Storage}
    {o : DecommitterOracle} {cycle : Nat} {pq : DecommittmentQuery} {r : DecommitResult}
    (h : decommit_into_memory B blw storage o cycle pq = some r) :
    OracleSteps o r.oracle := by
  rw [decommit_into_memory] at h
  set o1 : DecommitterOracle :=
    { o with decommitment_requests := o.decommitment_requests.push } with ho1
  have hstep1 : OracleSteps o o1 :=
    ⟨HRSteps.refl _, HRSteps.refl _, HRSteps.push_step _⟩
  rcases hl : mapGet o1.decommitted_code_hashes.inner pq.hash with _ | memory_page
  · rw [hl] at h
    rcases hg : get_bytecode storage o1 pq.hash with _ | ⟨values, o2, qs⟩
    · rw [hg] at h; exact absurd h (by simp)
    · rw [hg] at h
      have hstep2 : OracleSteps o1 o2 := get_bytecode_steps hg
      have hstep3 : OracleSteps o2
          { o2 with decommitted_code_hashes :=
              o2.decommitted_code_hashes.insert pq.hash pq.memory_page } :=
        ⟨HRSteps.refl _, HRSteps.insert_step _ _ _, HRSteps.refl _⟩
      have hor : r.oracle =
          { o2 with decommitted_code_hashes :=
              o2.decommitted_code_hashes.insert pq.hash pq.memory_page } := by
        cases B <;> simp at h <;> rw [← h]
      rw [hor]
      exact (hstep1.compose hstep2).compose hstep3
  · rw [hl] at h
    simp only [Option.some.injEq] at h
    rw [← h]
    exact hstep1

theorem runOp_steps {B : Bool} {blw : Nat → Nat} {storage : Storage}
    {o o' : DecommitterOracle} {op : DecOp}
    (h : runOp B blw storage o op = some o') : OracleSteps o o' := by
  cases op with
  | pop bs =>
    simp only [runOp, Option.some.injEq] at h
    rw [← h]; exact populate_steps o bs
  | dec cycle pq =>
    simp only [runOp, Option.map_eq_some'] at h
    obtain ⟨r, hr, ho⟩ := h
    rw [← ho]; exact decommit_steps hr

theorem runOps_steps {B : Bool} {blw : Nat → Nat} {storage : Storage}
    {o o' : DecommitterOracle} {ops : List DecOp}
    (h : runOps B blw storage o ops = some o') : OracleSteps o o' := by
  induction ops generalizing o with
  | nil =>
    simp only [runOps, Option.some.injEq] at h
    rw [← h]; exact OracleSteps.refl o
  | cons op t ih =>
    rw [runOps] at h
    rcases hop : runOp B blw storage o op with _ | o2
    · rw [hop] at h; exact absurd h (by simp)
    · rw [hop] at h
      exact (runOp_steps hop).compose (ih h)

/-- Atomic rollback of the three journals to a common checkpoint restores the
whole oracle state exactly. -/
theorem OracleSteps.rollback_restores {o o' : DecommitterOracle}
    (h : OracleSteps o o') : o'.rollback_to o.checkpoint = o := by
  rw [DecommitterOracle.rollback_to, DecommitterOracle.checkpoint]
  rw [h.1.rollback_eq, h.2.1.rollback_eq, h.2.2.rollback_eq]

/-! ### Write-loop and decommit-path characterizations -/

theorem writesFor_length (cycle timestamp page i : Nat) (vs : List Nat) :
    (writesFor cycle timestamp page i vs).length = vs.length := by
  induction vs generalizing i with
  | nil => rfl
  | cons v t ih => simp [writesFor, ih]

theorem writesFor_getElem (cycle timestamp page i : Nat) (vs : List Nat) (j : Nat) :
    (writesFor cycle timestamp page i vs)[j]? =
      (vs[j]?).map (fun v =>
        { cycle := cycle,
          query := { timestamp := timestamp, page := page, index := (i + j) % 2 ^ 32,
                     value := v, value_is_pointer := false, rw_flag := true } }) := by
  induction vs generalizing i j with
  | nil => simp [writesFor]
  | cons v t ih =>
    cases j with
    | zero => simp [writesFor]
    | succ j =>
      rw [writesFor]
      simp only [List.getElem?_cons_succ, ih (i + 1) j]
      have : i + 1 + j = i + (j + 1) := by omega
      rw [this]

theorem writesFor_map_value (cycle timestamp page i : Nat) (vs : List Nat) :
    (writesFor cycle timestamp page i vs).map (fun x => x.query.value) = vs := by
  induction vs generalizing i with
  | nil => rfl
  | cons v t ih => simp [writesFor, ih]

/-- A ledger hit (src lines 116-127): the request is logged, the recorded
page overrides the caller's, the length comes from the hash, and nothing
else happens. -/
theorem decommit_cached {B : Bool} {blw : Nat → Nat} {storage : Storage}
    {o : DecommitterOracle} {cycle : Nat} {pq : DecommittmentQuery} {P : Nat}
    (hhit : mapGet o.decommitted_code_hashes.inner pq.hash = some P) :
    decommit_into_memory B blw storage o cycle pq =
      some { oracle := { o with decommitment_requests := o.decommitment_requests.push }
             query :=
               { pq with
                 is_fresh := false
                 memory_page := P
                 decommitted_length := blw pq.hash }
             words := none
             writes := [] } := by
  rw [decommit_into_memory]
  have : mapGet ({ o with decommitment_requests := o.decommitment_requests.push }
      : DecommitterOracle).decommitted_code_hashes.inner pq.hash = some P := hhit
  rw [this]

theorem get_bytecode_same_other {storage : Storage} {o : DecommitterOracle} {hash : Nat}
    {w : List Nat} {o2 : DecommitterOracle} {qs : List Nat}
    (h : get_bytecode storage o hash = some (w, o2, qs)) :
    o2.decommitted_code_hashes = o.decommitted_code_hashes ∧
      o2.decommitment_requests = o.decommitment_requests ∧ qs.length ≤ 1 := by
  rw [get_bytecode] at h
  rcases hg : mapGet o.known_bytecodes.inner hash with _ | x
  · rw [hg] at h
    rcases hs : storage hash with _ | bytes
    · rw [hs] at h; exact absurd h (by simp)
    · rw [hs] at h
      simp only [Option.some.injEq, Prod.mk.injEq] at h
      rw [← h.2.1, ← h.2.2]
      exact ⟨rfl, rfl, by simp⟩
  · rw [hg] at h
    simp only [Option.some.injEq, Prod.mk.injEq] at h
    rw [← h.2.1, ← h.2.2]
    exact ⟨rfl, rfl, by simp⟩

theorem get_bytecode_resolves (storage : Storage) (o : DecommitterOracle) (hash : Nat) :
    (get_bytecode storage o hash).map (fun r => r.1) = resolves storage o hash := by
  rw [get_bytecode, resolves]
  rcases hg : mapGet o.known_bytecodes.inner hash with _ | x
  · rcases hs : storage hash with _ | bytes <;> simp
  · simp

/-- A ledger miss with a resolvable hash (src lines 128-170): the bytecode is
resolved, the caller's page is recorded in the ledger, the length is the word
count truncated to `u16`, one write per word is issued, and the words are
returned exactly in witness mode. -/
theorem decommit_fresh (B : Bool) (blw : Nat → Nat) {storage : Storage}
    {o : DecommitterOracle} (cycle : Nat) (pq : DecommittmentQuery) {w : List Nat}
    (hmiss : mapGet o.decommitted_code_hashes.inner pq.hash = none)
    (hres : resolves storage o pq.hash = some w) :
    ∃ r, decommit_into_memory B blw storage o cycle pq = some r ∧
      r.query.hash = pq.hash ∧
      r.query.timestamp = pq.timestamp ∧
      r.query.memory_page = pq.memory_page ∧
      r.query.is_fresh = true ∧
      r.query.decommitted_length = w.length % 2 ^ 16 ∧
      r.writes = writesFor cycle pq.timestamp pq.memory_page 0 w ∧
      r.words = (if B then some w else none) ∧
      r.oracle.decommitted_code_hashes =
        o.decommitted_code_hashes.insert pq.hash pq.memory_page ∧
      r.oracle.decommitment_requests = o.decommitment_requests.push := by
  rw [decommit_into_memory]
  set o1 : DecommitterOracle :=
    { o with decommitment_requests := o.decommitment_requests.push } with ho1
  have hmiss1 : mapGet o1.decommitted_code_hashes.inner pq.hash = none := hmiss
  rw [hmiss1]
  have hres1 : resolves storage o1 pq.hash = some w := hres
  rcases hg : get_bytecode storage o1 pq.hash with _ | ⟨values, o2, qs⟩
  · exfalso
    have := get_bytecode_resolves storage o1 pq.hash
    rw [hg, hres1] at this
    exact absurd this (by simp)
  · have hw : values = w := by
      have := get_bytecode_resolves storage o1 pq.hash
      rw [hg, hres1] at this
      simpa using this
    subst hw
    obtain ⟨hdch, hreq, _⟩ := get_bytecode_same_other hg
    cases B
    · refine ⟨_, rfl, rfl, rfl, rfl, rfl, rfl, rfl, by simp, ?_, ?_⟩
      · simp [HistoryRecorder.insert, hdch]
      · exact hreq
    · refine ⟨_, rfl, rfl, rfl, rfl, rfl, rfl, rfl, by simp, ?_, ?_⟩
      · simp [HistoryRecorder.insert, hdch]
      · exact hreq

/-! ### Ledger preservation across operations -/

theorem populate_dch (o : DecommitterOracle) (bs : List (Nat × List Nat)) :
    (populate o bs).decommitted_code_hashes = o.decommitted_code_hashes := by
  induction bs generalizing o with
  | nil => rfl
  | cons hb t ih => exact ih _

theorem decommit_ledger_preserved {B : Bool} {blw : Nat → Nat} {storage : Storage}
    {o : DecommitterOracle} {cycle : Nat} {pq : DecommittmentQuery} {r : DecommitResult}
    {H P : Nat} (hP : mapGet o.decommitted_code_hashes.inner H = some P)
    (h : decommit_into_memory B blw storage o cycle pq = some r) :
    mapGet r.oracle.decommitted_code_hashes.inner H = some P := by
  rcases hl : mapGet o.decommitted_code_hashes.inner pq.hash with _ | memory_page
  · rcases hres : resolves storage o pq.hash with _ | w
    · exfalso
      rw [decommit_into_memory] at h
      have hl1 : mapGet ({ o with decommitment_requests := o.decommitment_requests.push }
          : DecommitterOracle).decommitted_code_hashes.inner pq.hash = none := hl
      rw [hl1] at h
      rcases hg : get_bytecode storage
          { o with decommitment_requests := o.decommitment_requests.push } pq.hash
        with _ | ⟨values, o2, qs⟩
      · rw [hg] at h; exact absurd h (by simp)
      · have := get_bytecode_resolves storage
          { o with decommitment_requests := o.decommitment_requests.push }
          pq.hash
        rw [hg] at this
        have hres1 : resolves storage
            { o with decommitment_requests := o.decommitment_requests.push } pq.hash
            = none := hres
        rw [hres1] at this
        exact absurd this (by simp)
    · obtain ⟨r', hr', _, _, _, _, _, _, _, hdch, _⟩ :=
        decommit_fresh B blw cycle pq hl hres
      rw [h] at hr'
      have hrr : r = r' := by
        have := hr'
        simp only [Option.some.injEq] at this
        exact this
      subst hrr
      rw [hdch]
      have hne : ¬ pq.hash = H := by
        intro he; rw [he] at hl; rw [hl] at hP; exact absurd hP (by simp)
      simp [HistoryRecorder.insert, mapGet_insert_ne _ _ _ _ hne, hP]
  · rw [decommit_cached hl] at h
    have hrr : r.oracle = { o with decommitment_requests := o.decommitment_requests.push } := by
      have := h; simp only [Option.some.injEq] at this; rw [← this]
    rw [hrr]
    exact hP

theorem runOps_ledger_preserved {B : Bool} {blw : Nat → Nat} {storage : Storage}
    {o o' : DecommitterOracle} {ops : List DecOp} {H P : Nat}
    (hP : mapGet o.decommitted_code_hashes.inner H = some P)
    (h : runOps B blw storage o ops = some o') :
    mapGet o'.decommitted_code_hashes.inner H = some P := by
  induction ops generalizing o with
  | nil =>
    simp only [runOps, Option.some.injEq] at h
    rw [← h]; exact hP
  | cons op t ih =>
    rw [runOps] at h
    rcases hop : runOp B blw storage o op with _ | o2
    · rw [hop] at h; exact absurd h (by simp)
    · rw [hop] at h
      refine ih ?_ h
      cases op with
      | pop bs =>
        simp only [runOp, Option.some.injEq] at hop
        rw [← hop, populate_dch]; exact hP
      | dec cycle pq =>
        simp only [runOp, Option.map_eq_some'] at hop
        obtain ⟨r, hr, ho2⟩ := hop
        rw [← ho2]
        exact decommit_ledger_preserved hP hr

/-! ### Claim theorems -/

/-- Claim C1: once the Decommitment Ledger records hash `H` mapped to page
`P`, every subsequent decommit call for `H` — after any further sequence of
populate and decommit operations — returns a request with `memory_page = P`
and `is_fresh = false`, regardless of the memory page the caller supplied in
that request. -/
theorem claim1_ledger_page_sticky (B : Bool) (blw : Nat → Nat) (storage : Storage)
    (s0 s1 : DecommitterOracle) (ops : List DecOp) (H P cycle : Nat)
    (pq : DecommittmentQuery)
    (hP : mapGet s0.decommitted_code_hashes.inner H = some P)
    (hrun : runOps B blw storage s0 ops = some s1)
    (hh : pq.hash = H) :
    decommit_into_memory B blw storage s1 cycle pq =
      some { oracle := { s1 with decommitment_requests := s1.decommitment_requests.push }
             query :=
               { pq with
                 is_fresh := false
                 memory_page := P
                 decommitted_length := blw pq.hash }
             words := none
             writes := [] } := by
  have hP1 := runOps_ledger_preserved hP hrun
  exact decommit_cached (by rw [hh]; exact hP1)

/-- Witness for C1: with the Ledger holding 5 ↦ 9, a decommit request for
hash 5 asking for page 77 reports page 9 and `is_fresh = false`. -/
theorem claim1_ledger_page_sticky_witness :
    mapGet (⟨⟨[], []⟩, ⟨[(5, 9)], []⟩, ⟨[], []⟩⟩ :
        DecommitterOracle).decommitted_code_hashes.inner 5 = some 9 ∧
    runOps false (fun _ => 3) (fun _ => none)
        (⟨⟨[], []⟩, ⟨[(5, 9)], []⟩, ⟨[], []⟩⟩ : DecommitterOracle) [] =
      some (⟨⟨[], []⟩, ⟨[(5, 9)], []⟩, ⟨[], []⟩⟩ : DecommitterOracle) ∧
    decommit_into_memory false (fun _ => 3) (fun _ => none)
        (⟨⟨[], []⟩, ⟨[(5, 9)], []⟩, ⟨[], []⟩⟩ : DecommitterOracle) 2 ⟨5, 20, 77, 0, true⟩ =
      some ⟨⟨⟨[], []⟩, ⟨[(5, 9)], []⟩, ⟨[()], [()]⟩⟩, ⟨5, 20, 9, 3, false⟩, none, []⟩ :=
  ⟨by decide, by decide,
    claim1_ledger_page_sticky false (fun _ => 3) (fun _ => none)
      ⟨⟨[], []⟩, ⟨[(5, 9)], []⟩, ⟨[], []⟩⟩ ⟨⟨[], []⟩, ⟨[(5, 9)], []⟩, ⟨[], []⟩⟩ [] 5 9 2
      ⟨5, 20, 77, 0, true⟩ (by decide) (by decide) rfl⟩

/-- Claim C5: `get_bytecode` (and hence a decommit call) fails — the Rust
panic, modelled as `none` — exactly when the requested hash is absent from
both the known-bytecodes cache and the storage collaborator; a ledger hit, a
cache miss that resolves, `populate`, `checkpoint` and `rollback_to` (total
functions of the model) never fail. -/
theorem claim5_failure_iff (storage : Storage) (o : DecommitterOracle) (h : Nat)
    (B : Bool) (blw : Nat → Nat) (cycle : Nat) (pq : DecommittmentQuery) :
    (get_bytecode storage o h = none ↔
      mapGet o.known_bytecodes.inner h = none ∧ storage h = none) ∧
    (decommit_into_memory B blw storage o cycle pq = none ↔
      mapGet o.decommitted_code_hashes.inner pq.hash = none ∧
        mapGet o.known_bytecodes.inner pq.hash = none ∧ storage pq.hash = none) := by
  constructor
  · rw [get_bytecode]
    rcases hg : mapGet o.known_bytecodes.inner h with _ | x
    · rcases hs : storage h with _ | bytes <;> simp
    · simp
  · rw [decommit_into_memory]
    rcases hl : mapGet ({ o with decommitment_requests := o.decommitment_requests.push }
        : DecommitterOracle).decommitted_code_hashes.inner pq.hash with _ | memory_page
    · have hl0 : mapGet o.decommitted_code_hashes.inner pq.hash = none := hl
      rw [get_bytecode]
      rcases hg : mapGet o.known_bytecodes.inner pq.hash with _ | x
      · rcases hs : storage pq.hash with _ | bytes
        · simp [hl0, hg, hs]
        · cases B <;> simp [hl0, hg, hs]
      · cases B <;> simp [hl0, hg]
    · have hl0 : mapGet o.decommitted_code_hashes.inner pq.hash = some memory_page := hl
      simp [hl0]

/-- Claim C7: two back-to-back `get_bytecode` calls for the same hash, with
no intervening rollback or populate, return the same word sequence and the
same state, and the storage collaborator is queried at most once for that
hash across the two calls (the second call queries it not at all). -/
theorem claim7_get_bytecode_idempotent (storage : Storage) (o : DecommitterOracle)
    (h : Nat) (w : List Nat) (o1 : DecommitterOracle) (q1 : List Nat)
    (hget : get_bytecode storage o h = some (w, o1, q1)) :
    get_bytecode storage o1 h = some (w, o1, []) ∧ q1.length ≤ 1 := by
  rw [get_bytecode] at hget
  rcases hg : mapGet o.known_bytecodes.inner h with _ | x
  · rw [hg] at hget
    rcases hs : storage h with _ | bytes
    · rw [hs] at hget; exact absurd hget (by simp)
    · rw [hs] at hget
      simp only [Option.some.injEq, Prod.mk.injEq] at hget
      obtain ⟨hw, ho1, hq1⟩ := hget
      constructor
      · rw [← ho1, get_bytecode]
        simp [HistoryRecorder.insert, mapGet_insert_self, hw]
      · rw [← hq1]; simp
  · rw [hg] at hget
    simp only [Option.some.injEq, Prod.mk.injEq] at hget
    obtain ⟨hw, ho1, hq1⟩ := hget
    constructor
    · rw [← ho1, get_bytecode, hg, hw]
    · rw [← hq1]; simp

/-- Witness for C7: a first `get_bytecode` for hash 5 loads one word from
storage; the second call returns the same word from the cache with no
further storage query. -/
theorem claim7_get_bytecode_idempotent_witness :
    get_bytecode (fun h => if h = 5 then some (List.replicate 32 0) else none)
        DecommitterOracle.new 5 =
      some ([0], ⟨⟨[(5, [0])], [(5, none)]⟩, ⟨[], []⟩, ⟨[], []⟩⟩, [5]) ∧
    (get_bytecode (fun h => if h = 5 then some (List.replicate 32 0) else none)
        (⟨⟨[(5, [0])], [(5, none)]⟩, ⟨[], []⟩, ⟨[], []⟩⟩ : DecommitterOracle) 5 =
      some ([0], ⟨⟨[(5, [0])], [(5, none)]⟩, ⟨[], []⟩, ⟨[], []⟩⟩, []) ∧
      ([5] : List Nat).length ≤ 1) :=
  ⟨by decide,
    claim7_get_bytecode_idempotent (fun h => if h = 5 then some (List.replicate 32 0) else none)
      DecommitterOracle.new 5 [0] ⟨⟨[(5, [0])], [(5, none)]⟩, ⟨[], []⟩, ⟨[], []⟩⟩ [5]
      (by decide)⟩

/-- Claim C8: after `populate [(H, W1)]` followed by `populate [(H, W2)]`,
`get_bytecode H` returns `W2` with no storage query for `H`: later populate
entries overwrite earlier ones and take precedence over storage (the storage
collaborator is universally quantified, so its contents are irrelevant). -/
theorem claim8_populate_precedence (storage : Storage) (o : DecommitterOracle)
    (H : Nat) (W1 W2 : List Nat) :
    get_bytecode storage (populate (populate o [(H, W1)]) [(H, W2)]) H =
      some (W2, populate (populate o [(H, W1)]) [(H, W2)], []) := by
  have hkb : (populate (populate o [(H, W1)]) [(H, W2)]).known_bytecodes.inner
      = mapInsert (mapInsert o.known_bytecodes.inner H W1) H W2 := by
    simp [populate, HistoryRecorder.insert]
  rw [get_bytecode, hkb, mapGet_insert_self]

/-- Claim C4: for a hash recorded in the Ledger by a fresh decommit that
resolved words `w`, a later decommit call reports `decommitted_length`
equal to `w.length` — the length of the word sequence actually decommitted —
provided `bytecode_len_in_words` (modelled as the opaque `blw`, not under
`src/`) yields the bytecode's known length for that hash, as the spec
asserts. -/
theorem claim4_cached_reports_true_length (B : Bool) (blw : Nat → Nat)
    (storage : Storage) (o : DecommitterOracle) (cycle1 cycle2 : Nat)
    (pq pq2 : DecommittmentQuery) (w : List Nat) (r1 : DecommitResult)
    (hmiss : mapGet o.decommitted_code_hashes.inner pq.hash = none)
    (hres : resolves storage o pq.hash = some w)
    (hblw : blw pq.hash = w.length)
    (h1 : decommit_into_memory B blw storage o cycle1 pq = some r1)
    (hh : pq2.hash = pq.hash) :
    decommit_into_memory B blw storage r1.oracle cycle2 pq2 =
      some { oracle :=
               { r1.oracle with
                 decommitment_requests := r1.oracle.decommitment_requests.push }
             query :=
               { pq2 with
                 is_fresh := false
                 memory_page := pq.memory_page
                 decommitted_length := w.length }
             words := none
             writes := [] } := by
  obtain ⟨r', hr', _, _, _, _, _, _, _, hdch, hreq⟩ :=
    decommit_fresh B blw cycle1 pq hmiss hres
  rw [h1] at hr'
  have hrr : r1 = r' := by simp only [Option.some.injEq] at hr'; exact hr'
  subst hrr
  have hledger : mapGet r1.oracle.decommitted_code_hashes.inner pq2.hash =
      some pq.memory_page := by
    rw [hh, hdch]
    simp [HistoryRecorder.insert, mapGet_insert_self]
  rw [decommit_cached hledger, hh, hblw]

/-- Witness for C4, the P3 scenario: storage holds a 96-byte (3-word)
bytecode for hash 5; a fresh decommit to page 4 and then a second decommit
requesting page 8 reports `memory_page = 4`, `is_fresh = false` and
`decommitted_length = 3`. -/
theorem claim4_cached_reports_true_length_witness :
    mapGet DecommitterOracle.new.decommitted_code_hashes.inner 5 = none ∧
    resolves (fun h => if h = 5 then some (List.replicate 96 0) else none)
      DecommitterOracle.new 5 = some [0, 0, 0] ∧
    (fun _ : Nat => 3) 5 = ([0, 0, 0] : List Nat).length ∧
    decommit_into_memory false (fun _ => 3)
        (fun h => if h = 5 then some (List.replicate 96 0) else none)
        DecommitterOracle.new 1 ⟨5, 10, 4, 0, false⟩ =
      some ⟨⟨⟨[(5, [0, 0, 0])], [(5, none)]⟩, ⟨[(5, 4)], [(5, none)]⟩, ⟨[()], [()]⟩⟩,
        ⟨5, 10, 4, 3, true⟩, none,
        [⟨1, ⟨10, 4, 0, 0, false, true⟩⟩, ⟨1, ⟨10, 4, 1, 0, false, true⟩⟩,
         ⟨1, ⟨10, 4, 2, 0, false, true⟩⟩]⟩ ∧
    decommit_into_memory false (fun _ => 3)
        (fun h => if h = 5 then some (List.replicate 96 0) else none)
        (⟨⟨[(5, [0, 0, 0])], [(5, none)]⟩, ⟨[(5, 4)], [(5, none)]⟩, ⟨[()], [()]⟩⟩ :
          DecommitterOracle) 2 ⟨5, 20, 8, 7, true⟩ =
      some ⟨⟨⟨[(5, [0, 0, 0])], [(5, none)]⟩, ⟨[(5, 4)], [(5, none)]⟩,
          ⟨[(), ()], [(), ()]⟩⟩, ⟨5, 20, 4, 3, false⟩, none, []⟩ :=
  ⟨by decide, by decide, by decide, by decide,
    claim4_cached_reports_true_length false (fun _ => 3)
      (fun h => if h = 5 then some (List.replicate 96 0) else none)
      DecommitterOracle.new 1 2 ⟨5, 10, 4, 0, false⟩ ⟨5, 20, 8, 7, true⟩ [0, 0, 0]
      ⟨⟨⟨[(5, [0, 0, 0])], [(5, none)]⟩, ⟨[(5, 4)], [(5, none)]⟩, ⟨[()], [()]⟩⟩,
        ⟨5, 10, 4, 3, true⟩, none,
        [⟨1, ⟨10, 4, 0, 0, false, true⟩⟩, ⟨1, ⟨10, 4, 1, 0, false, true⟩⟩,
         ⟨1, ⟨10, 4, 2, 0, false, true⟩⟩]⟩
      (by decide) (by decide) (by decide) (by decide) rfl⟩

/-- Claim C9: for every starting state and request, decommit in witness mode
(`B = true`) equals decommit in normal mode (`B = false`) with the optional
words replaced by the written word sequence when the decommit was fresh and
by `none` when it was cached; state, request and memory writes coincide. -/
theorem claim9_witness_mode_equiv (blw : Nat → Nat) (storage : Storage)
    (o : DecommitterOracle) (cycle : Nat) (pq : DecommittmentQuery) :
    decommit_into_memory true blw storage o cycle pq =
      (decommit_into_memory false blw storage o cycle pq).map
        (fun r =>
          { r with
            words := if r.query.is_fresh
              then some (r.writes.map (fun x => x.query.value)) else none }) := by
  rw [decommit_into_memory, decommit_into_memory]
  rcases hl : mapGet ({ o with decommitment_requests := o.decommitment_requests.push }
      : DecommitterOracle).decommitted_code_hashes.inner pq.hash with _ | P
  · rcases hg : get_bytecode storage
        { o with decommitment_requests := o.decommitment_requests.push } pq.hash
      with _ | ⟨values, o2, qs⟩
    · simp
    · simp [writesFor_map_value]
  · simp

/-- Claim C6 (amended): for every fresh decommit, the reported
`decommitted_length` is the number of words in the resolved bytecode reduced
modulo `2 ^ 16` (the Rust `values.len() as u16` cast); it equals the word
count itself exactly for bytecodes of fewer than `2 ^ 16` words. -/
theorem claim6_fresh_length_mod_u16 (B : Bool) (blw : Nat → Nat) (storage : Storage)
    (o : DecommitterOracle) (cycle : Nat) (pq : DecommittmentQuery) (w : List Nat)
    (r : DecommitResult)
    (hmiss : mapGet o.decommitted_code_hashes.inner pq.hash = none)
    (hres : resolves storage o pq.hash = some w)
    (h : decommit_into_memory B blw storage o cycle pq = some r) :
    r.query.decommitted_length = w.length % 2 ^ 16 ∧
      (w.length < 2 ^ 16 → r.query.decommitted_length = w.length) := by
  obtain ⟨r', hr', _, _, _, _, hql, _, _, _, _⟩ :=
    decommit_fresh B blw cycle pq hmiss hres
  rw [h] at hr'
  have hrr : r = r' := by simp only [Option.some.injEq] at hr'; exact hr'
  subst hrr
  rw [hql]
  exact ⟨rfl, fun hlt => Nat.mod_eq_of_lt hlt⟩

/-- Witness for the amended C6: a fresh decommit of the two-word bytecode
`[8, 9]` reports `decommitted_length = 2`. -/
theorem claim6_fresh_length_mod_u16_witness :
    mapGet (populate DecommitterOracle.new
        [(5, [8, 9])]).decommitted_code_hashes.inner 5 = none ∧
    resolves (fun _ => none) (populate DecommitterOracle.new [(5, [8, 9])]) 5 =
      some [8, 9] ∧
    decommit_into_memory false (fun _ => 0) (fun _ => none)
        (populate DecommitterOracle.new [(5, [8, 9])]) 1 ⟨5, 10, 4, 0, false⟩ =
      some ⟨⟨⟨[(5, [8, 9])], [(5, none)]⟩, ⟨[(5, 4)], [(5, none)]⟩, ⟨[()], [()]⟩⟩,
        ⟨5, 10, 4, 2, true⟩, none,
        [⟨1, ⟨10, 4, 0, 8, false, true⟩⟩, ⟨1, ⟨10, 4, 1, 9, false, true⟩⟩]⟩ ∧
    (⟨5, 10, 4, 2, true⟩ : DecommittmentQuery).decommitted_length =
      ([8, 9] : List Nat).length % 2 ^ 16 ∧
    (⟨5, 10, 4, 2, true⟩ : DecommittmentQuery).decommitted_length =
      ([8, 9] : List Nat).length :=
  ⟨by decide, by decide, by decide,
    (claim6_fresh_length_mod_u16 false (fun _ => 0) (fun _ => none)
      (populate DecommitterOracle.new [(5, [8, 9])]) 1 ⟨5, 10, 4, 0, false⟩ [8, 9]
      ⟨⟨⟨[(5, [8, 9])], [(5, none)]⟩, ⟨[(5, 4)], [(5, none)]⟩, ⟨[()], [()]⟩⟩,
        ⟨5, 10, 4, 2, true⟩, none,
        [⟨1, ⟨10, 4, 0, 8, false, true⟩⟩, ⟨1, ⟨10, 4, 1, 9, false, true⟩⟩]⟩
      (by decide) (by decide) (by decide)).1,
    (claim6_fresh_length_mod_u16 false (fun _ => 0) (fun _ => none)
      (populate DecommitterOracle.new [(5, [8, 9])]) 1 ⟨5, 10, 4, 0, false⟩ [8, 9]
      ⟨⟨⟨[(5, [8, 9])], [(5, none)]⟩, ⟨[(5, 4)], [(5, none)]⟩, ⟨[()], [()]⟩⟩,
        ⟨5, 10, 4, 2, true⟩, none,
        [⟨1, ⟨10, 4, 0, 8, false, true⟩⟩, ⟨1, ⟨10, 4, 1, 9, false, true⟩⟩]⟩
      (by decide) (by decide) (by decide)).2 (by decide)⟩

theorem writesFor_pairwise (c t p : Nat) (vs : List Nat) (i : Nat)
    (h : i + vs.length ≤ 2 ^ 32) :
    List.Pairwise (fun x y => x.query.index < y.query.index)
      (writesFor c t p i vs) := by
  induction vs generalizing i with
  | nil => simp [writesFor]
  | cons v tl ih =>
    rw [writesFor]
    refine List.Pairwise.cons ?_ (ih (i + 1) (by simp at h ⊢; omega))
    intro b hb
    obtain ⟨j, hj⟩ := List.mem_iff_getElem?.mp hb
    rw [writesFor_getElem] at hj
    rcases hw : tl[j]? with _ | v2
    · rw [hw] at hj; exact absurd hj (by simp)
    · rw [hw] at hj
      have hjlen : j < tl.length := by
        by_contra hc
        rw [List.getElem?_eq_none (Nat.le_of_not_lt hc)] at hw
        exact absurd hw (by simp)
      simp only [Option.map_some', Option.some.injEq] at hj
      rw [← hj]
      have hi : i < 2 ^ 32 := by simp at h; omega
      have hij : i + 1 + j < 2 ^ 32 := by simp at h; omega
      show i % 2 ^ 32 < (i + 1 + j) % 2 ^ 32
      rw [Nat.mod_eq_of_lt hi, Nat.mod_eq_of_lt hij]
      omega

/-- Claim C2 (amended): a cached decommit issues zero memory writes; a fresh
decommit issues exactly one write per word of the resolved bytecode, all on
the caller-supplied page, each tagged with the cycle counter and the
request's timestamp, the `j`-th write carrying word `j` at index
`j % 2 ^ 32` (the Rust `MemoryIndex(i as u32)` cast); consequently the
indices are `0, 1, ..., len - 1` in strictly increasing order whenever the
bytecode has at most `2 ^ 32` words. -/
theorem claim2_write_pattern (B : Bool) (blw : Nat → Nat) (storage : Storage)
    (o : DecommitterOracle) (cycle : Nat) (pq : DecommittmentQuery)
    (r : DecommitResult)
    (h : decommit_into_memory B blw storage o cycle pq = some r) :
    (∀ P, mapGet o.decommitted_code_hashes.inner pq.hash = some P →
      r.writes = []) ∧
    (∀ w, mapGet o.decommitted_code_hashes.inner pq.hash = none →
      resolves storage o pq.hash = some w →
      r.writes.length = w.length ∧
      (∀ j : Nat, r.writes[j]? = (w[j]?).map (fun v =>
        { cycle := cycle
          query := { timestamp := pq.timestamp, page := pq.memory_page,
                     index := j % 2 ^ 32, value := v, value_is_pointer := false,
                     rw_flag := true } })) ∧
      (w.length ≤ 2 ^ 32 →
        List.Pairwise (fun x y => x.query.index < y.query.index) r.writes)) := by
  constructor
  · intro P hP
    rw [decommit_cached hP] at h
    simp only [Option.some.injEq] at h
    rw [← h]
  · intro w hmiss hres
    obtain ⟨r', hr', _, _, _, _, _, hwr, _, _, _⟩ :=
      decommit_fresh B blw cycle pq hmiss hres
    rw [h] at hr'
    have hrr : r = r' := by simp only [Option.some.injEq] at hr'; exact hr'
    subst hrr
    rw [hwr]
    refine ⟨writesFor_length cycle pq.timestamp pq.memory_page 0 w, ?_, ?_⟩
    · intro j
      rw [writesFor_getElem]
      simp
    · intro hlen
      exact writesFor_pairwise cycle pq.timestamp pq.memory_page w 0 (by omega)

/-- Witness for the amended C2: a fresh decommit of the two-word bytecode
`[8, 9]` to page 4 issues exactly the two writes
`(page 4, index 0, value 8)` and `(page 4, index 1, value 9)`. -/
theorem claim2_write_pattern_witness :
    decommit_into_memory false (fun _ => 0) (fun _ => none)
        (populate DecommitterOracle.new [(5, [8, 9])]) 1 ⟨5, 10, 4, 0, false⟩ =
      some ⟨⟨⟨[(5, [8, 9])], [(5, none)]⟩, ⟨[(5, 4)], [(5, none)]⟩, ⟨[()], [()]⟩⟩,
        ⟨5, 10, 4, 2, true⟩, none,
        [⟨1, ⟨10, 4, 0, 8, false, true⟩⟩, ⟨1, ⟨10, 4, 1, 9, false, true⟩⟩]⟩ ∧
    mapGet (populate DecommitterOracle.new
        [(5, [8, 9])]).decommitted_code_hashes.inner 5 = none ∧
    resolves (fun _ => none) (populate DecommitterOracle.new [(5, [8, 9])]) 5 =
      some [8, 9] ∧
    ([⟨1, ⟨10, 4, 0, 8, false, true⟩⟩,
      ⟨1, ⟨10, 4, 1, 9, false, true⟩⟩] : List MemoryWrite).length =
      ([8, 9] : List Nat).length ∧
    ([⟨1, ⟨10, 4, 0, 8, false, true⟩⟩,
      ⟨1, ⟨10, 4, 1, 9, false, true⟩⟩] : List MemoryWrite)[0]? =
      some ⟨1, ⟨10, 4, 0 % 2 ^ 32, 8, false, true⟩⟩ ∧
    ([⟨1, ⟨10, 4, 0, 8, false, true⟩⟩,
      ⟨1, ⟨10, 4, 1, 9, false, true⟩⟩] : List MemoryWrite)[1]? =
      some ⟨1, ⟨10, 4, 1 % 2 ^ 32, 9, false, true⟩⟩ :=
  ⟨by decide, by decide, by decide,
    ((claim2_write_pattern false (fun _ => 0) (fun _ => none)
      (populate DecommitterOracle.new [(5, [8, 9])]) 1 ⟨5, 10, 4, 0, false⟩
      ⟨⟨⟨[(5, [8, 9])], [(5, none)]⟩, ⟨[(5, 4)], [(5, none)]⟩, ⟨[()], [()]⟩⟩,
        ⟨5, 10, 4, 2, true⟩, none,
        [⟨1, ⟨10, 4, 0, 8, false, true⟩⟩, ⟨1, ⟨10, 4, 1, 9, false, true⟩⟩]⟩
      (by decide)).2 [8, 9] (by decide) (by decide)).1,
    ((claim2_write_pattern false (fun _ => 0) (fun _ => none)
      (populate DecommitterOracle.new [(5, [8, 9])]) 1 ⟨5, 10, 4, 0, false⟩
      ⟨⟨⟨[(5, [8, 9])], [(5, none)]⟩, ⟨[(5, 4)], [(5, none)]⟩, ⟨[()], [()]⟩⟩,
        ⟨5, 10, 4, 2, true⟩, none,
        [⟨1, ⟨10, 4, 0, 8, false, true⟩⟩, ⟨1, ⟨10, 4, 1, 9, false, true⟩⟩]⟩
      (by decide)).2 [8, 9] (by decide) (by decide)).2.1 0,
    ((claim2_write_pattern false (fun _ => 0) (fun _ => none)
      (populate DecommitterOracle.new [(5, [8, 9])]) 1 ⟨5, 10, 4, 0, false⟩
      ⟨⟨⟨[(5, [8, 9])], [(5, none)]⟩, ⟨[(5, 4)], [(5, none)]⟩, ⟨[()], [()]⟩⟩,
        ⟨5, 10, 4, 2, true⟩, none,
        [⟨1, ⟨10, 4, 0, 8, false, true⟩⟩, ⟨1, ⟨10, 4, 1, 9, false, true⟩⟩]⟩
      (by decide)).2 [8, 9] (by decide) (by decide)).2.1 1⟩

/-- Storage for the C2 counterexample: empty. -/
def c2cex_storage : Storage := fun _ => none

/-- Bytecode of `2 ^ 32 + 1` words for the C2 counterexample. -/
def c2cex_words : List Nat := List.replicate (2 ^ 32 + 1) 0

/-- Oracle state for the C2 counterexample: the bytecode is populated for
hash 5. -/
def c2cex_oracle : DecommitterOracle := populate DecommitterOracle.new [(5, c2cex_words)]

/-- The decommit call of the C2 counterexample: fresh decommit of hash 5 to
page 3 at timestamp 11, cycle 7. -/
def c2cex_res : Option DecommitResult :=
  decommit_into_memory false (fun _ => 0) c2cex_storage c2cex_oracle 7 ⟨5, 11, 3, 0, false⟩

/-- Counterexample to C2 as stated: decommitting a bytecode of `2 ^ 32 + 1`
words issues one write per word, but because of the `i as u32` cast the
write at position `2 ^ 32` carries index 0 while the one before it carries
index `2 ^ 32 - 1`: the indices are not `0, 1, ..., len - 1` and are not
strictly increasing. -/
theorem claim2_counterexample :
    (c2cex_res.map fun r => r.query.is_fresh) = some true ∧
    (c2cex_res.map fun r => r.writes.length) = some (2 ^ 32 + 1) ∧
    (c2cex_res.bind fun r => (r.writes[2 ^ 32 - 1]?).map fun x => x.query.index) =
      some (2 ^ 32 - 1) ∧
    (c2cex_res.bind fun r => (r.writes[2 ^ 32]?).map fun x => x.query.index) =
      some 0 := by
  have hmiss : mapGet c2cex_oracle.decommitted_code_hashes.inner
      (⟨5, 11, 3, 0, false⟩ : DecommittmentQuery).hash = none := rfl
  have hres : resolves c2cex_storage c2cex_oracle
      (⟨5, 11, 3, 0, false⟩ : DecommittmentQuery).hash = some c2cex_words := rfl
  obtain ⟨r, hr, _, _, _, hqf, _, hwr, _, _, _⟩ :=
    decommit_fresh false (fun _ => 0) 7 ⟨5, 11, 3, 0, false⟩ hmiss hres
  have hres2 : c2cex_res = some r := hr
  rw [hres2]
  refine ⟨?_, ?_, ?_, ?_⟩
  · simp only [Option.map_some']
    rw [hqf]
  · simp only [Option.map_some']
    rw [hwr, writesFor_length, c2cex_words, List.length_replicate]
  · simp only [Option.some_bind]
    rw [hwr, writesFor_getElem, c2cex_words, List.getElem?_replicate, if_pos (by norm_num)]
    simp only [Option.map_some']
    norm_num
  · simp only [Option.some_bind]
    rw [hwr, writesFor_getElem, c2cex_words, List.getElem?_replicate, if_pos (by norm_num)]
    simp only [Option.map_some']
    norm_num

/-- Bytecode of `2 ^ 16` words for the C6 counterexample. -/
def c6cex_words : List Nat := List.replicate (2 ^ 16) 0

/-- Oracle state for the C6 counterexample: the bytecode is populated for
hash 5. -/
def c6cex_oracle : DecommitterOracle := populate DecommitterOracle.new [(5, c6cex_words)]

/-- The decommit call of the C6 counterexample: fresh decommit of hash 5. -/
def c6cex_res : Option DecommitResult :=
  decommit_into_memory true (fun _ => 0) (fun _ => none) c6cex_oracle 1 ⟨5, 10, 4, 0, false⟩

/-- Counterexample to C6 as stated: a fresh decommit of a bytecode of
`2 ^ 16` words issues `2 ^ 16` memory writes but, because of the
`values.len() as u16` cast, reports `decommitted_length = 0` instead of the
number of words in the resolved bytecode. -/
theorem claim6_counterexample :
    (c6cex_res.map fun r => r.query.decommitted_length) = some 0 ∧
    (c6cex_res.map fun r => r.writes.length) = some (2 ^ 16) := by
  have hmiss : mapGet c6cex_oracle.decommitted_code_hashes.inner
      (⟨5, 10, 4, 0, false⟩ : DecommittmentQuery).hash = none := rfl
  have hres : resolves (fun _ => none) c6cex_oracle
      (⟨5, 10, 4, 0, false⟩ : DecommittmentQuery).hash = some c6cex_words := rfl
  obtain ⟨r, hr, _, _, _, _, hql, hwr, _, _, _⟩ :=
    decommit_fresh true (fun _ => 0) 1 ⟨5, 10, 4, 0, false⟩ hmiss hres
  have hres2 : c6cex_res = some r := hr
  rw [hres2]
  constructor
  · simp only [Option.map_some']
    rw [hql, c6cex_words, List.length_replicate]
    norm_num
  · simp only [Option.map_some']
    rw [hwr, writesFor_length, c6cex_words, List.length_replicate]

/-- Claim C3 (amended): taking a checkpoint `C`, performing any sequence of
populate and decommit operations and rolling back to `C` restores the
Bytecode Cache, the Decommitment Ledger and the Request Log together to
exactly the state they had at `C`, undo logs included; a subsequent decommit
for a hash absent from the Ledger at `C` (in particular one freshly
decommitted after `C`, since the Ledger only grows) whose bytecode is still
resolvable at `C` — cached at `C` or present in storage — is classified
`is_fresh = true` again and re-issues one memory write per word. -/
theorem claim3_rollback_atomic (B : Bool) (blw : Nat → Nat) (storage : Storage)
    (s0 s1 : DecommitterOracle) (ops : List DecOp)
    (hrun : runOps B blw storage s0 ops = some s1) :
    s1.rollback_to s0.checkpoint = s0 ∧
    (∀ cycle : Nat, ∀ pq : DecommittmentQuery, ∀ w : List Nat,
      mapGet s0.decommitted_code_hashes.inner pq.hash = none →
      resolves storage s0 pq.hash = some w →
      ∃ r, decommit_into_memory B blw storage (s1.rollback_to s0.checkpoint) cycle pq =
          some r ∧
        r.query.is_fresh = true ∧
        r.writes = writesFor cycle pq.timestamp pq.memory_page 0 w ∧
        r.writes.length = w.length) := by
  have hsteps := runOps_steps hrun
  have hrb := hsteps.rollback_restores
  refine ⟨hrb, ?_⟩
  intro cycle pq w hm hres
  rw [hrb]
  obtain ⟨r, hr, _, _, _, hqf, _, hwr, _, _, _⟩ := decommit_fresh B blw cycle pq hm hres
  refine ⟨r, hr, hqf, hwr, by rw [hwr, writesFor_length]⟩

/-- Witness for the amended C3: populate `(5, [8, 9])` and freshly decommit
hash 5, roll back to the initial checkpoint; the state is restored exactly,
and since storage also holds a one-word bytecode for hash 5, a new decommit
of hash 5 succeeds again. -/
theorem claim3_rollback_atomic_witness :
    runOps false (fun _ => 0) (fun h => if h = 5 then some (List.replicate 32 0) else none)
        DecommitterOracle.new [.pop [(5, [8, 9])], .dec 1 ⟨5, 10, 4, 0, false⟩] =
      some ⟨⟨[(5, [8, 9])], [(5, none)]⟩, ⟨[(5, 4)], [(5, none)]⟩, ⟨[()], [()]⟩⟩ ∧
    ((⟨⟨[(5, [8, 9])], [(5, none)]⟩, ⟨[(5, 4)], [(5, none)]⟩, ⟨[()], [()]⟩⟩ :
        DecommitterOracle).rollback_to DecommitterOracle.new.checkpoint =
      DecommitterOracle.new) ∧
    mapGet DecommitterOracle.new.decommitted_code_hashes.inner 5 = none ∧
    resolves (fun h => if h = 5 then some (List.replicate 32 0) else none)
      DecommitterOracle.new 5 = some [0] ∧
    (decommit_into_memory false (fun _ => 0)
        (fun h => if h = 5 then some (List.replicate 32 0) else none)
        ((⟨⟨[(5, [8, 9])], [(5, none)]⟩, ⟨[(5, 4)], [(5, none)]⟩, ⟨[()], [()]⟩⟩ :
          DecommitterOracle).rollback_to DecommitterOracle.new.checkpoint)
        2 ⟨5, 20, 6, 0, false⟩).isSome = true := by
  refine ⟨by decide, ?_, by decide, by decide, ?_⟩
  · exact (claim3_rollback_atomic false (fun _ => 0)
      (fun h => if h = 5 then some (List.replicate 32 0) else none)
      DecommitterOracle.new
      ⟨⟨[(5, [8, 9])], [(5, none)]⟩, ⟨[(5, 4)], [(5, none)]⟩, ⟨[()], [()]⟩⟩
      [.pop [(5, [8, 9])], .dec 1 ⟨5, 10, 4, 0, false⟩] (by decide)).1
  · obtain ⟨r, hr, _, _, _⟩ := (claim3_rollback_atomic false (fun _ => 0)
      (fun h => if h = 5 then some (List.replicate 32 0) else none)
      DecommitterOracle.new
      ⟨⟨[(5, [8, 9])], [(5, none)]⟩, ⟨[(5, 4)], [(5, none)]⟩, ⟨[()], [()]⟩⟩
      [.pop [(5, [8, 9])], .dec 1 ⟨5, 10, 4, 0, false⟩] (by decide)).2
      2 ⟨5, 20, 6, 0, false⟩ [0] (by decide) (by decide)
    rw [hr]
    rfl

/-- Operation sequence of the C3 counterexample: populate `(5, [1, 2])`,
then freshly decommit hash 5 to page 3. -/
def c3cex_ops : List DecOp := [.pop [(5, [1, 2])], .dec 1 ⟨5, 11, 3, 0, false⟩]

/-- The state after running the C3 counterexample operations from a fresh
oracle. -/
def c3cex_s1 : DecommitterOracle :=
  ⟨⟨[(5, [1, 2])], [(5, none)]⟩, ⟨[(5, 3)], [(5, none)]⟩, ⟨[()], [()]⟩⟩

/-- Counterexample to C3 as stated: with empty storage, populate `(5, [1, 2])`
and freshly decommit hash 5 after the checkpoint; the rollback does restore
the state exactly, but the subsequent decommit of hash 5 — a hash freshly
decommitted after the checkpoint — panics (`none`) instead of being
classified `is_fresh = true` with memory writes, because the rollback forgot
the populated bytecode and storage cannot resolve it. -/
theorem claim3_counterexample :
    runOps false (fun _ => 0) (fun _ => none) DecommitterOracle.new c3cex_ops =
      some c3cex_s1 ∧
    ((decommit_into_memory false (fun _ => 0) (fun _ => none)
        (populate DecommitterOracle.new [(5, [1, 2])]) 1 ⟨5, 11, 3, 0, false⟩).map
      (fun r => r.query.is_fresh)) = some true ∧
    c3cex_s1.rollback_to DecommitterOracle.new.checkpoint = DecommitterOracle.new ∧
    decommit_into_memory false (fun _ => 0) (fun _ => none)
      (c3cex_s1.rollback_to DecommitterOracle.new.checkpoint) 2 ⟨5, 12, 6, 0, false⟩ =
      none :=
  ⟨by decide, by decide, by decide, by decide⟩

/-! ### Pubdata seal criterion
(`core/lib/zksync_core/src/state_keeper/seal_criteria/criteria/pubdata_bytes.rs`) -/

/-- Modelled from the claim: `ExecutionMetrics` (not under `src/`) as used by
`should_seal`, reduced to the two quantities the criterion reads — the
`pubdata_published` counter and the value of the `size()` method, the latter
kept opaque. -/
structure ExecutionMetrics where
  pubdata_published : Nat
  size : Nat
deriving DecidableEq, Repr

/-- Modelled from the claim: `SealData` (not under `src/`) as used by
`should_seal`: its execution metrics and the value of
`writes_metrics.size(protocol_version)` for the protocol version of the
call, kept opaque. -/
structure SealData where
  execution_metrics : ExecutionMetrics
  writes_metrics_size : Nat
deriving DecidableEq, Repr

/-- Model of `SealResolution` (its four variants as matched in the src). -/
inductive SealResolution where
  | NoSeal
  | IncludeAndSeal
  | ExcludeAndSeal
  | Unexecutable (reason : String)
deriving DecidableEq, Repr

/-- The `PubDataBytesCriterion` configuration (src lines 7-11). -/
structure PubDataBytesCriterion where
  max_pubdata_per_da_slot : Nat
  num_da_slots : Nat
deriving DecidableEq, Repr

/-- Model of `PubDataBytesCriterion::should_seal` (src lines 14-50).
`max_pubdata_per_l1_batch` is the `u64` product of the configuration fields,
hence the `% 2 ^ 64`.  The reject and include-and-seal bounds are computed in
the source from the configured percentages with `f64` multiplication and
rounding; IEEE floating point is outside this embedding, so the two rounded
bounds are taken as inputs.  The transaction size falls back to the metric
sizes exactly when `pubdata_published` is zero. -/
def should_seal (c : PubDataBytesCriterion) (reject_bound include_and_seal_bound : Nat)
    (block_data tx_data : SealData) : SealResolution :=
  let max_pubdata_per_l1_batch := c.max_pubdata_per_da_slot * c.num_da_slots % 2 ^ 64
  let block_size := block_data.execution_metrics.size + block_data.writes_metrics_size
  let tx_size :=
    if tx_data.execution_metrics.pubdata_published = 0 then
      tx_data.execution_metrics.size + tx_data.writes_metrics_size
    else tx_data.execution_metrics.pubdata_published
  if tx_size > reject_bound then
    SealResolution.Unexecutable ("Transaction cannot be sent to L1 due to pubdata limits")
  else if block_size > max_pubdata_per_l1_batch then SealResolution.ExcludeAndSeal
  else if block_size > include_and_seal_bound then SealResolution.IncludeAndSeal
  else SealResolution.NoSeal

/-- Claim C10: `should_seal` returns `Unexecutable` exactly when the
transaction's pubdata size — `pubdata_published` when nonzero, otherwise the
sum of the metric sizes — exceeds the reject bound; within the reject bound
the result depends only on the block size: `ExcludeAndSeal` when it exceeds
`max_pubdata_per_da_slot * num_da_slots`, `IncludeAndSeal` when it exceeds
the close-block bound, `NoSeal` otherwise.  The product is assumed not to
overflow `u64` (otherwise the source wraps). -/
theorem claim10_should_seal_characterization (c : PubDataBytesCriterion)
    (reject_bound include_and_seal_bound : Nat) (block_data tx_data : SealData)
    (hno : c.max_pubdata_per_da_slot * c.num_da_slots < 2 ^ 64) :
    ((should_seal c reject_bound include_and_seal_bound block_data tx_data =
        SealResolution.Unexecutable
          ("Transaction cannot be sent to L1 due to pubdata limits")) ↔
      (if tx_data.execution_metrics.pubdata_published = 0 then
          tx_data.execution_metrics.size + tx_data.writes_metrics_size
        else tx_data.execution_metrics.pubdata_published) > reject_bound) ∧
    ((should_seal c reject_bound include_and_seal_bound block_data tx_data =
        SealResolution.ExcludeAndSeal) ↔
      ((if tx_data.execution_metrics.pubdata_published = 0 then
          tx_data.execution_metrics.size + tx_data.writes_metrics_size
        else tx_data.execution_metrics.pubdata_published) ≤ reject_bound ∧
        block_data.execution_metrics.size + block_data.writes_metrics_size >
          c.max_pubdata_per_da_slot * c.num_da_slots)) ∧
    ((should_seal c reject_bound include_and_seal_bound block_data tx_data =
        SealResolution.IncludeAndSeal) ↔
      ((if tx_data.execution_metrics.pubdata_published = 0 then
          tx_data.execution_metrics.size + tx_data.writes_metrics_size
        else tx_data.execution_metrics.pubdata_published) ≤ reject_bound ∧
        block_data.execution_metrics.size + block_data.writes_metrics_size ≤
          c.max_pubdata_per_da_slot * c.num_da_slots ∧
        block_data.execution_metrics.size + block_data.writes_metrics_size >
          include_and_seal_bound)) ∧
    ((should_seal c reject_bound include_and_seal_bound block_data tx_data =
        SealResolution.NoSeal) ↔
      ((if tx_data.execution_metrics.pubdata_published = 0 then
          tx_data.execution_metrics.size + tx_data.writes_metrics_size
        else tx_data.execution_metrics.pubdata_published) ≤ reject_bound ∧
        block_data.execution_metrics.size + block_data.writes_metrics_size ≤
          c.max_pubdata_per_da_slot * c.num_da_slots ∧
        block_data.execution_metrics.size + block_data.writes_metrics_size ≤
          include_and_seal_bound)) := by
  rw [should_seal, Nat.mod_eq_of_lt hno]
  set tx_size :=
    if tx_data.execution_metrics.pubdata_published = 0 then
      tx_data.execution_metrics.size + tx_data.writes_metrics_size
    else tx_data.execution_metrics.pubdata_published with htx
  set block_size :=
    block_data.execution_metrics.size + block_data.writes_metrics_size with hbs
  by_cases h1 : tx_size > reject_bound
  · simp [h1]
  · by_cases h2 : block_size > c.max_pubdata_per_da_slot * c.num_da_slots
    · simp [h1, h2, Nat.le_of_not_lt h1]
    · by_cases h3 : block_size > include_and_seal_bound
      · simp [h1, h2, h3, Nat.le_of_not_lt h1, Nat.le_of_not_lt h2]
      · simp [h1, h2, h3, Nat.le_of_not_lt h1, Nat.le_of_not_lt h2, Nat.le_of_not_lt h3]

/-- Witness for C10: with a 100-byte-per-slot, 2-slot configuration, reject
bound 190 and close-block bound 150, a transaction of published pubdata 30
in a block of size 160 yields `IncludeAndSeal`, matching the
characterization. -/
theorem claim10_should_seal_characterization_witness :
    (100 : Nat) * 2 < 2 ^ 64 ∧
    (should_seal ⟨100, 2⟩ 190 150 ⟨⟨0, 60⟩, 100⟩ ⟨⟨30, 7⟩, 9⟩ =
        SealResolution.IncludeAndSeal ↔
      ((if (30 : Nat) = 0 then (7 : Nat) + 9 else 30) ≤ 190 ∧
        (60 : Nat) + 100 ≤ 100 * 2 ∧ (60 : Nat) + 100 > 150)) :=
  ⟨by norm_num,
    (claim10_should_seal_characterization ⟨100, 2⟩ 190 150 ⟨⟨0, 60⟩, 100⟩ ⟨⟨30, 7⟩, 9⟩
      (by norm_num)).2.2.1⟩
